import Mathlib

/-!
Verification development for the trace aggregation engine of the
TPU-Profiling repository (tools/trace_collection_tools/process_traces.py).

The Python source is shallowly embedded: events become a structure with the
optional fields the script reads, durations become exact rationals (the
script's floats carry exact decimal values in all inputs considered here),
dictionaries keyed by tuples become functions or association lists, and
exceptions become `Except`.  Python's set `COMM_KEYS` is embedded as the
list of its elements in declaration order; wherever the script iterates
over the set (whose iteration order CPython does not specify), the
definitions below take the iteration order as an explicit parameter.
-/

namespace ProcessTraces

/-! ### Python string primitives

Python compares strings lexicographically by code point, and `pat in s`
is the substring test.  Both are embedded on `List Char`, which the Lean
kernel evaluates directly. -/

/-- `pat` occurs at the start of `l` (helper for the substring test). -/
def startsWith : List Char → List Char → Bool
  | [], _ => true
  | _ :: _, [] => false
  | a :: as, b :: bs => a == b && startsWith as bs

/-- Python's `pat in hay` on strings: `pat` occurs as a contiguous substring. -/
def substrAt (pat : List Char) : List Char → Bool
  | [] => pat.isEmpty
  | c :: cs => startsWith pat (c :: cs) || substrAt pat cs

/-- Substring test on `String` (Python `pat in hay`). -/
def strIn (pat hay : String) : Bool := substrAt pat.data hay.data

/-- Python's `str.lower()`; the trace labels are ASCII, so the ASCII case
map of `Char.toLower` coincides with Python's. -/
def pyLower (s : String) : String := ⟨s.data.map Char.toLower⟩

/-! ### The communication-category set (`COMM_KEYS`, lines 20–31)

The source declares a Python `set` literal.  Its elements, in declaration
order, are the list below; CPython iterates a set of strings in hash
order, which is unspecified, so definitions that scan the set take the
iteration order as a parameter. -/

/-- The elements of the `COMM_KEYS` set literal, in declaration order. -/
def COMM_KEYS : List String :=
  ["all-reduce", "all_gather", "all-gather", "all-to-all", "reduce-scatter",
   "collective-permute", "collective-permute-start", "collective-permute-done",
   "send", "recv"]

/-! ### Events

One trace event, with the fields the script reads: `event.get("name", "")`,
`event.get("ph")`, `event.get("args", {}).get("hlo_category", "")`,
`args["device_duration_ps"]`, `event["dur"]`.  A missing `args` dict is the
same as all arg fields missing.  Numeric fields are embedded as exact
rationals. -/

structure Event where
  name : Option String
  ph : Option String
  hlo_category : Option String
  device_duration_ps : Option ℚ
  dur : Option ℚ
deriving DecidableEq

/-- `str(event.get("name", "")).lower()`. -/
def eventName (e : Event) : String := pyLower (e.name.getD "")

/-- `str(event.get("args", {}).get("hlo_category", "")).lower()`. -/
def eventCategory (e : Event) : String := pyLower (e.hlo_category.getD "")

/-- `is_comm_event` (lines 34–38): any key occurs in the lowered name, or
the lowered category hint is a member of the set.  Both checks are
iteration-order independent. -/
def is_comm_event (e : Event) : Bool :=
  COMM_KEYS.any (fun key => strIn key (eventName e)) ||
    COMM_KEYS.contains (eventCategory e)

/-- `comm_type` (lines 41–50), with the set's iteration order as the
parameter `order`: exact category-hint membership first, then the first
key of the iteration whose label occurs in the name, else `"unknown"`. -/
def comm_typeO (order : List String) (e : Event) : String :=
  if COMM_KEYS.contains (eventCategory e) then eventCategory e
  else
    match order.find? (fun key => strIn key (eventName e)) with
    | some key => key
    | none => "unknown"

/-- `comm_type` read with the declaration order of the set literal. -/
def comm_type (e : Event) : String := comm_typeO COMM_KEYS e

/-! ### Python exceptions -/

/-- The exceptions the script can raise while reading and folding traces. -/
inductive PyErr
  | keyError
  | attributeError
  | typeError
  | badGzip
  | jsonDecode
deriving DecidableEq

/-- `duration_us` (lines 53–60): the picosecond device duration divided by
1e6 when present, else the microsecond `dur` field, else `KeyError`. -/
def duration_us (e : Event) : Except PyErr ℚ :=
  match e.device_duration_ps with
  | some ps => .ok (ps / 1000000)
  | none =>
    match e.dur with
    | some d => .ok d
    | none => .error .keyError

/-- Whether `duration_us` succeeds on `e`. -/
def hasDur (e : Event) : Bool :=
  e.device_duration_ps.isSome || e.dur.isSome

/-- The value `duration_us` returns when it succeeds (0 is never read:
every use below is guarded by `hasDur`). -/
def durQ (e : Event) : ℚ :=
  match e.device_duration_ps with
  | some ps => ps / 1000000
  | none => (e.dur).getD 0

/-! ### `iter_trace_events` (lines 63–70)

The decompressed document is a Python value; the script runs
`data.get("traceEvents", data)` and iterates the result.  `.get` exists
only on dicts — on a top-level list (or any non-dict) the attribute lookup
raises `AttributeError` — and Python's `for` over a dict yields its keys,
over a string its characters, and over a number raises `TypeError`. -/

inductive PyVal
  | obj (fields : List (String × PyVal))
  | arr (elems : List PyVal)
  | str (s : String)
  | num (q : ℚ)

/-- `fields["k"]`-style lookup on an embedded dict (first binding wins,
as in a Python dict where keys are unique). -/
def lookupField (fields : List (String × PyVal)) (k : String) : Option PyVal :=
  (fields.find? (fun p => p.1 == k)).map (fun p => p.2)

/-- Python's `for` loop over a value: list elements, dict keys, string
characters; iterating a number raises `TypeError`. -/
def pyIter : PyVal → Except PyErr (List PyVal)
  | .obj fields => .ok (fields.map (fun p => .str p.1))
  | .arr elems => .ok elems
  | .str s => .ok (s.data.map (fun c => .str ⟨[c]⟩))
  | .num _ => .error .typeError

/-- The body of `iter_trace_events` after decompression and JSON parsing:
`events = data.get("traceEvents", data); for evt in events: yield evt`.
On a non-dict document the `.get` attribute lookup raises
`AttributeError`. -/
def iter_trace_events (data : PyVal) : Except PyErr (List PyVal) :=
  match data with
  | .obj fields =>
    match lookupField fields "traceEvents" with
    | some v => pyIter v
    | none => pyIter (.obj fields)
  | _ => .error .attributeError

/-! ### Aggregation keys and states (§3 of the spec; lines 106–149)

The run folds classified events into dictionaries keyed by
(model, tp, batch, communication type).  The spec's Aggregation Key is the
four-field tuple; an Aggregation State is embedded as a total function
from keys to cells, with `(0, 0)` as the `defaultdict` default. -/

structure AggKey where
  model : String
  tp : Option String
  batch : Option String
  ctype : String
deriving DecidableEq

/-- The empty Aggregation State: every cell at the defaultdict default. -/
def emptyAgg : AggKey → ℚ × ℕ := fun _ => (0, 0)

/-- One `accumulate` step: add a duration to the key's cell and bump its
count (`cell[0] += total; cell[1] += cnt` with a single event). -/
def accumulate (s : AggKey → ℚ × ℕ) (k : AggKey) (d : ℚ) : AggKey → ℚ × ℕ :=
  fun k' => if k' = k then ((s k).1 + d, (s k).2 + 1) else s k'

/-- Fold a list of classified events, each a (key, duration) pair, into a
state, in list order. -/
def accumAll (s : AggKey → ℚ × ℕ) (evts : List (AggKey × ℚ)) : AggKey → ℚ × ℕ :=
  evts.foldl (fun st e => accumulate st e.1 e.2) s

/-- Merge two Aggregation States by per-key addition of totals and counts. -/
def mergeAgg (s₁ s₂ : AggKey → ℚ × ℕ) : AggKey → ℚ × ℕ :=
  fun k => ((s₁ k).1 + (s₂ k).1, (s₁ k).2 + (s₂ k).2)

/-- The exact sum of the durations contributed to key `k`. -/
def keyTotal (evts : List (AggKey × ℚ)) (k : AggKey) : ℚ :=
  ((evts.filter (fun e => e.1 = k)).map (fun e => e.2)).sum

/-- The number of events contributed to key `k`. -/
def keyCount (evts : List (AggKey × ℚ)) (k : AggKey) : ℕ :=
  evts.countP (fun e => e.1 = k)

/-! ### One trace file inside the main loop (lines 117–149)

A discovered trace file, as the loop body sees it: the metadata that
`parse_model` / `parse_batch_tp` extracted from its path (path parsing
itself is not under any claim, so the extracted values are carried
directly) and its parsed event list. -/

structure TraceFile where
  model : Option String
  batch : Option String
  tp : Option String
  events : List Event

/-- `model or "unknown_model"` (line 142): `None` and the empty string
both fall back to the distinguished bucket. -/
def modelKey (m : Option String) : String :=
  match m with
  | none => "unknown_model"
  | some s => if s = "" then "unknown_model" else s

/-- Line 120: the completed-interval communication events of one file. -/
def comm_events (evts : List Event) : List Event :=
  evts.filter (fun e => e.ph == some "X" && is_comm_event e)

/-- The per-file `totals_us[c]` (lines 126–129): exact sum of the durations
of the file's communication events classified as `c`. -/
def totals_usF (order : List String) (evts : List Event) (c : String) : ℚ :=
  (((comm_events evts).filter (fun e => comm_typeO order e == c)).map durQ).sum

/-- The per-file `counts[c]` (lines 127–130). -/
def countsF (order : List String) (evts : List Event) (c : String) : ℕ :=
  (comm_events evts).countP (fun e => comm_typeO order e == c)

/-- The distinct communication types of one file's communication events:
the key set of the per-file `totals_us` dict.  (The loop on line 136 visits
them sorted by descending total; only dict insertion order depends on that,
so the first-occurrence order is used here.) -/
def fileCtypes (order : List String) (evts : List Event) : List String :=
  ((comm_events evts).map (comm_typeO order)).dedup

/-- The aggregation keys one file inserts (lines 139–149): its metadata
paired with each of its communication types. -/
def fileKeys (order : List String) (f : TraceFile) : List AggKey :=
  (fileCtypes order f.events).map
    (fun c => ⟨modelKey f.model, f.tp, f.batch, c⟩)

/-- Whether file `f` touches aggregation key `k`. -/
def contributesKey (order : List String) (f : TraceFile) (k : AggKey) : Bool :=
  decide (k ∈ fileKeys order f)

/-- The cell one file writes for key `k`'s communication type: that file's
total and count for `k.ctype`. -/
def cellOf (order : List String) (f : TraceFile) (k : AggKey) : ℚ × ℕ :=
  (totals_usF order f.events k.ctype, countsF order f.events k.ctype)

/-! ### The run state of `main`

`totals_by_model_comm` (accumulated with `+=`, lines 143–145) and
`processed_data` (assigned, lines 146–149) are embedded as a total
function and a partial function on keys; `anyComm` records whether
`totals_by_comm` has received any entry (only its emptiness is read, on
line 154). -/

structure St where
  grid : AggKey → ℚ × ℕ
  longform : AggKey → Option (ℚ × ℕ)
  anyComm : Bool

/-- The state at the start of the run: all dicts empty. -/
def initSt : St := ⟨emptyAgg, fun _ => none, false⟩

/-- Errors that end the run: the `SystemExit` for an empty file set
(line 104), an uncaught decompression/JSON exception from
`iter_trace_events` (line 119), or the uncaught `KeyError` from
`duration_us` (line 129). -/
inductive RunErr
  | noTraceFiles
  | fileError (e : PyErr)
  | missingDuration
deriving DecidableEq

/-- The loop body for one parsed file (lines 117–149).  A file with no
communication events is skipped (`continue`, line 124).  If any
communication event lacks a duration field, `duration_us` raises and the
exception propagates out of `main` — nothing of this file is recorded and
the run dies.  Otherwise every (key, cell) of the file is added into the
grid dict and assigned (overwriting) into `processed_data`. -/
def processFile (order : List String) (st : St) (f : TraceFile) :
    Except RunErr St :=
  if (comm_events f.events).isEmpty then .ok st
  else if (comm_events f.events).any (fun e => !hasDur e) then
    .error .missingDuration
  else .ok
    { grid := fun k =>
        if k ∈ fileKeys order f then
          ((st.grid k).1 + (cellOf order f k).1,
           (st.grid k).2 + (cellOf order f k).2)
        else st.grid k
      longform := fun k =>
        if k ∈ fileKeys order f then some (cellOf order f k)
        else st.longform k
      anyComm := true }

/-- The file loop: each discovered file is decompressed and parsed first
(`events = list(iter_trace_events(trace_path))`, line 119, with no handler
around it), so a file whose read fails aborts the run there, and a
`KeyError` from the fold aborts it likewise. -/
def processFiles (order : List String) (st : St) :
    List (Except PyErr TraceFile) → Except RunErr St
  | [] => .ok st
  | .error e :: _ => .error (.fileError e)
  | .ok f :: rest =>
    match processFile order st f with
    | .error er => .error er
    | .ok st' => processFiles order st' rest

/-! ### Decimal numerals

`f"{int(val):010d}"` (line 161) and `f"{total_us:.3f}"` (line 187) need a
decimal printer; `int(val)` needs a decimal parser.  Both are written as
plain structural recursions so the kernel can evaluate them. -/

/-- The character of one decimal digit (callers only pass values `< 10`). -/
def digitChar : ℕ → Char
  | 0 => '0'
  | 1 => '1'
  | 2 => '2'
  | 3 => '3'
  | 4 => '4'
  | 5 => '5'
  | 6 => '6'
  | 7 => '7'
  | 8 => '8'
  | 9 => '9'
  | _ => '0'

/-- The decimal digits of `n`, most significant first, by repeated
division (fuel-based so the recursion is structural; fuel `n` suffices
because `n / 10 < n` for `n ≠ 0`).  `natDecAux fuel 0 = []`. -/
def natDecAux : ℕ → ℕ → List Char
  | 0, _ => []
  | _ + 1, 0 => []
  | fuel + 1, n => natDecAux fuel (n / 10) ++ [digitChar (n % 10)]

/-- Python's `str(n)` for a natural number. -/
def pyNatStr (n : ℕ) : List Char :=
  if n = 0 then ['0'] else natDecAux n n

/-- Pad on the left with `'0'` up to width `w` (no-op when already longer),
as `:0Nd` formatting does for a non-negative value. -/
def padZeros (w : ℕ) (l : List Char) : List Char :=
  List.replicate (w - l.length) '0' ++ l

/-- `f"{n:010d}"`: ten characters minimum, zero-padded, the sign counted
in the width (`f"{-1:010d} == "-000000001"`). -/
def fmt010 (n : ℤ) : List Char :=
  if n < 0 then '-' :: padZeros 9 (pyNatStr n.natAbs)
  else padZeros 10 (pyNatStr n.toNat)

/-- The numeric value of a digit character, if it is one. -/
def digitVal? (c : Char) : Option ℕ :=
  if 48 ≤ c.toNat ∧ c.toNat ≤ 57 then some (c.toNat - 48) else none

/-- Fold a digit string into its value; `none` as soon as a non-digit
appears. -/
def decDigits? (l : List Char) : Option ℕ :=
  l.foldl
    (fun acc c =>
      match acc, digitVal? c with
      | some a, some d => some (10 * a + d)
      | _, _ => none)
    (some 0)

/-- Python's `int(val)` on the axis strings, as far as the claims need it:
an optional sign followed by at least one digit.  (CPython additionally
strips whitespace and allows `_` between digits; no claim involves such
values.) -/
def pyInt? (s : String) : Option ℤ :=
  match s.data with
  | [] => none
  | c :: rest =>
    if c = '-' then
      if rest.isEmpty then none
      else (decDigits? rest).map (fun n => -(n : ℤ))
    else if c = '+' then
      if rest.isEmpty then none
      else (decDigits? rest).map (fun n => (n : ℤ))
    else (decDigits? (c :: rest)).map (fun n => (n : ℤ))

/-! ### `sort_key` and Python's sort (lines 157–166, 177–178) -/

/-- `sort_key` (lines 157–163): `None` maps to `(1, "")`; a value that
parses as an int maps to `(0, f"{int(val):010d}")`; anything else to
`(0, val)`.  The string component is carried as its character list. -/
def sort_key (val : Option String) : ℕ × List Char :=
  match val with
  | none => (1, [])
  | some s =>
    match pyInt? s with
    | some n => (0, fmt010 n)
    | none => (0, s.data)

/-- Python's `<` on strings: strict lexicographic comparison by code
point. -/
def charsLt : List Char → List Char → Bool
  | [], [] => false
  | [], _ :: _ => true
  | _ :: _, [] => false
  | a :: as, b :: bs =>
    if a.toNat < b.toNat then true
    else if b.toNat < a.toNat then false
    else charsLt as bs

/-- Python's `<` on the `(int, str)` pairs `sort_key` returns. -/
def keyLt (k₁ k₂ : ℕ × List Char) : Bool :=
  decide (k₁.1 < k₂.1) || (k₁.1 == k₂.1 && charsLt k₁.2 k₂.2)

/-- Stable insertion of `x` before the first element `y` with
`¬ key y < key x`, mirroring how a stable sort places equal keys. -/
def insSorted (le : α → α → Bool) (x : α) : List α → List α
  | [] => [x]
  | y :: ys => if le x y then x :: y :: ys else y :: insSorted le x ys

/-- Stable insertion sort; `sorted` in CPython is a stable sort by `<` on
the keys, and on the decidable total orders used here they agree. -/
def isortLe (le : α → α → Bool) : List α → List α
  | [] => []
  | x :: xs => insSorted le x (isortLe le xs)

/-- `sorted(vals, key=sort_key)`. -/
def sortAxis (l : List (Option String)) : List (Option String) :=
  isortLe (fun a b => !keyLt (sort_key b) (sort_key a)) l

/-! ### Cell rendering (lines 186–187) -/

/-- `f"{m/1000:.3f}"`-style decimal assembly for a non-negative count of
thousandths. -/
def fmt3N (m : ℕ) : List Char :=
  pyNatStr (m / 1000) ++ '.' :: padZeros 3 (pyNatStr (m % 1000))

/-- `f"{q:.3f}"` on the embedded exact rational: round to thousandths,
halves away from zero.  (Python rounds the event's binary double; on every
value with an exact 3-decimal representation the two agree.) -/
def fmt3 (q : ℚ) : List Char :=
  if q < 0 then '-' :: fmt3N ((2000 * q.num.natAbs + q.den) / (2 * q.den))
  else fmt3N ((2000 * q.num.toNat + q.den) / (2 * q.den))

/-- One grid cell, `f"{total_us:.3f}/{count}"`. -/
def fmtCell (cell : ℚ × ℕ) : String :=
  ⟨fmt3 cell.1 ++ '/' :: pyNatStr cell.2⟩

/-- How `csv.writer` renders an axis value: `None` becomes the empty
field. -/
def showOpt (v : Option String) : String := v.getD ""

/-! ### Grid emission (lines 169–188)

`totals_by_model_comm[(model, ctype)]` is a dict from `(batch, tp)` to a
cell; the emitter receives it as an association list with distinct keys. -/

/-- The distinct batch values of one sub-grid (line 175), in first-seen
order as a dict key scan yields them. -/
def gridBatches (g : List ((Option String × Option String) × (ℚ × ℕ))) :
    List (Option String) :=
  (g.map (fun e => e.1.1)).dedup

/-- The distinct tp values of one sub-grid (line 176). -/
def gridTps (g : List ((Option String × Option String) × (ℚ × ℕ))) :
    List (Option String) :=
  (g.map (fun e => e.1.2)).dedup

/-- `grid.get((batch, tp), (0.0, 0))` (line 186). -/
def gridGet (g : List ((Option String × Option String) × (ℚ × ℕ)))
    (bt : Option String × Option String) : ℚ × ℕ :=
  ((g.find? (fun e => e.1 = bt)).map (fun e => e.2)).getD (0, 0)

/-- The CSV rows one `(model, ctype)` table gets (lines 180–188): the
header `"batch \ tp"` with the sorted tp axis, then one row per sorted
batch with a rendered cell per tp. -/
def emitGridTable (g : List ((Option String × Option String) × (ℚ × ℕ))) :
    List (List String) :=
  ("batch \\ tp" :: (sortAxis (gridTps g)).map showOpt) ::
    (sortAxis (gridBatches g)).map
      (fun b => showOpt b ::
        (sortAxis (gridTps g)).map (fun t => fmtCell (gridGet g (b, t))))

/-! ### Reconstructing the dicts' key sets for emission

A Python dict's key set is exactly the set of keys ever inserted; the
folds above keep the cell values as functions, so the emitter recovers the
key sets from the contributing files. -/

/-- Whether file `f` inserts into `totals_by_model_comm[(m, c)]`. -/
def contributesPair (order : List String) (f : TraceFile)
    (mc : String × String) : Bool :=
  modelKey f.model == mc.1 && (fileCtypes order f.events).contains mc.2

/-- The `(batch, tp)` key set of `totals_by_model_comm[(m, c)]`: the
(batch, tp) of every file that inserted into that table. -/
def observedBT (order : List String) (files : List TraceFile)
    (mc : String × String) : List (Option String × Option String) :=
  (files.filterMap
    (fun f => if contributesPair order f mc then some (f.batch, f.tp)
              else none)).dedup

/-- `totals_by_model_comm[(m, c)]` as the association list the emitter
walks: its key set paired with the accumulated cells. -/
def subGrid (order : List String) (files : List TraceFile)
    (grid : AggKey → ℚ × ℕ) (mc : String × String) :
    List ((Option String × Option String) × (ℚ × ℕ)) :=
  (observedBT order files mc).map
    (fun bt => (bt, grid ⟨mc.1, bt.2, bt.1, mc.2⟩))

/-- The key set of `totals_by_model_comm` itself (line 169). -/
def allPairs (order : List String) (files : List TraceFile) :
    List (String × String) :=
  (files.flatMap
    (fun f => (fileCtypes order f.events).map
      (fun c => (modelKey f.model, c)))).dedup

/-- Every aggregation key any file inserted (the key set of
`processed_data`, flattened). -/
def allKeys (order : List String) (files : List TraceFile) : List AggKey :=
  (files.flatMap (fileKeys order)).dedup

/-- The long-form rows (lines 192–207): one row per populated
`processed_data` entry, carrying its key and its (last-assigned) cell. -/
def longRows (order : List String) (files : List TraceFile)
    (lf : AggKey → Option (ℚ × ℕ)) : List (AggKey × ℚ × ℕ) :=
  (allKeys order files).filterMap (fun k => (lf k).map (fun c => (k, c)))

/-- The artifacts a successful run writes: one grid CSV per (model, ctype)
pair, then the parquet and flat-CSV exports of the long-form rows.  (File
naming via `sanitize_filename` is not under any claim; the model and ctype
tokens are carried unsanitized.) -/
inductive Artifact
  | gridCsv (model ctype : String) (table : List (List String))
  | parquetFile (rows : List (AggKey × ℚ × ℕ))
  | flatCsv (rows : List (AggKey × ℚ × ℕ))

/-- The artifact list of the output phase (lines 169–213). -/
def emitAll (order : List String) (files : List TraceFile) (st : St) :
    List Artifact :=
  ((allPairs order files).map
    (fun mc => .gridCsv mc.1 mc.2
      (emitGridTable (subGrid order files st.grid mc)))) ++
  [.parquetFile (longRows order files st.longform),
   .flatCsv (longRows order files st.longform)]

/-- `main` (lines 101–213) over the discovered files (each already paired
with its read result): `SystemExit` when none were found; otherwise the
file loop, aborted by the first uncaught exception; then the early
`return` with nothing written when `totals_by_comm` stayed empty (line
154–155), else the artifact writes. -/
def mainO (order : List String) (files : List (Except PyErr TraceFile)) :
    Except RunErr (List Artifact) :=
  if files.isEmpty then .error .noTraceFiles
  else
    match processFiles order initSt files with
    | .error e => .error e
    | .ok st =>
      if st.anyComm then
        .ok (emitAll order (files.filterMap (fun x => x.toOption)) st)
      else .ok []

/-- The final `totals_by_model_comm` cell of key `k` after a run that
completed its file loop (`(0, 0)` for an aborted run, which writes no
output). -/
def finalGrid (order : List String) (files : List (Except PyErr TraceFile))
    (k : AggKey) : ℚ × ℕ :=
  match processFiles order initSt files with
  | .ok st => st.grid k
  | .error _ => (0, 0)

/-- The final `processed_data` record of key `k` after a run that
completed its file loop. -/
def finalLong (order : List String) (files : List (Except PyErr TraceFile))
    (k : AggKey) : Option (ℚ × ℕ) :=
  match processFiles order initSt files with
  | .ok st => st.longform k
  | .error _ => none

/-! ## Theorems -/

/-! ### C3: the Trace Reader's two document shapes -/

/-- A sample event document node for the C3 statement. -/
def evtNode : PyVal :=
  .obj [("name", .str "all-reduce"), ("ph", .str "X"), ("dur", .num 1)]

/-- C3 (code_bug): the reader does yield the event records when the event
collection is nested under `traceEvents`, but on a document whose top
level is itself the event collection — a shape the source's own comment
(line 67) says it supports — `data.get` raises `AttributeError` instead of
yielding the events, and a dict of neither shape yields its keys instead
of failing with a parse error. -/
theorem claim_C3_reader_shapes :
    iter_trace_events (.obj [("traceEvents", .arr [evtNode])]) = .ok [evtNode] ∧
    iter_trace_events (.arr [evtNode]) = .error .attributeError ∧
    iter_trace_events (.obj [("other", .num 3)]) = .ok [.str "other"] := by
  refine ⟨rfl, rfl, rfl⟩

/-! ### C10: the filter accepts exactly the events with a known category -/

/-- Bridge between `List.contains` and membership. -/
theorem contains_iff_mem {l : List String} {s : String} :
    l.contains s = true ↔ s ∈ l := by
  simp [List.contains, List.elem_iff]

/-- `comm_type`'s exact-match branch. -/
theorem comm_typeO_contains_eq {order : List String} {e : Event}
    (h : COMM_KEYS.contains (eventCategory e) = true) :
    comm_typeO order e = eventCategory e := by
  unfold comm_typeO
  rw [if_pos h]

/-- `comm_type`'s substring-scan branch. -/
theorem comm_typeO_find_eq {order : List String} {e : Event}
    (h : COMM_KEYS.contains (eventCategory e) = false) :
    comm_typeO order e =
      match order.find? (fun key => strIn key (eventName e)) with
      | some key => key
      | none => "unknown" := by
  unfold comm_typeO
  rw [if_neg (by intro hc; rw [h] at hc; exact Bool.false_ne_true hc)]

/-- `is_comm_event` as a disjunction. -/
theorem is_comm_iff {e : Event} :
    is_comm_event e = true ↔
      (∃ key ∈ COMM_KEYS, strIn key (eventName e) = true) ∨
        eventCategory e ∈ COMM_KEYS := by
  unfold is_comm_event
  rw [Bool.or_eq_true, List.any_eq_true, contains_iff_mem]

/-- C10 (confirmed): for every iteration order of the `COMM_KEYS` set,
`is_comm_event` accepts an event iff `comm_type` classifies it into the
known set; hence the `"unknown"` fallback never passes the filter, and no
aggregation key any file inserts carries it. -/
theorem claim_C10_filter_iff_known :
    ∀ (order : List String) (e : Event),
      (∀ s, s ∈ order ↔ s ∈ COMM_KEYS) →
      (is_comm_event e = true ↔ comm_typeO order e ∈ COMM_KEYS) ∧
      (comm_typeO order e = "unknown" → is_comm_event e = false) ∧
      "unknown" ∉ COMM_KEYS ∧
      (∀ (f : TraceFile) (k : AggKey),
        k ∈ fileKeys order f → k.ctype ∈ COMM_KEYS ∧ k.ctype ≠ "unknown") := by
  intro order e hcov
  have hunk : "unknown" ∉ COMM_KEYS := by decide
  have main : ∀ e' : Event,
      (is_comm_event e' = true ↔ comm_typeO order e' ∈ COMM_KEYS) := by
    intro e'
    cases hc : COMM_KEYS.contains (eventCategory e') with
    | true =>
      rw [comm_typeO_contains_eq hc]
      exact ⟨fun _ => contains_iff_mem.mp hc,
        fun _ => is_comm_iff.mpr (Or.inr (contains_iff_mem.mp hc))⟩
    | false =>
      rw [comm_typeO_find_eq hc]
      constructor
      · intro h
        rcases is_comm_iff.mp h with ⟨key, hkm, hki⟩ | hcat
        · have hex : ∃ x ∈ order, strIn x (eventName e') = true :=
            ⟨key, (hcov key).mpr hkm, hki⟩
          rcases Option.isSome_iff_exists.mp (List.find?_isSome.mpr hex)
            with ⟨k, hk⟩
          rw [hk]
          exact (hcov k).mp (List.mem_of_find?_eq_some hk)
        · rw [contains_iff_mem.mpr hcat] at hc
          exact absurd hc (by simp)
      · intro h
        rcases hfind : order.find? (fun key => strIn key (eventName e'))
          with _ | k
        · rw [hfind] at h
          exact absurd h hunk
        · have hks := List.find?_some hfind
          have hkm := List.mem_of_find?_eq_some hfind
          exact is_comm_iff.mpr (Or.inl ⟨k, (hcov k).mp hkm, hks⟩)
  refine ⟨main e, fun hu => ?_, hunk, fun f k hk => ?_⟩
  · by_contra hcomm
    have := (main e).mp (Bool.of_not_eq_false hcomm)
    rw [hu] at this
    exact hunk this
  · have hctype : k.ctype ∈ fileCtypes order f.events := by
      rcases List.mem_map.mp hk with ⟨c, hc, hck⟩
      rw [← hck]
      exact hc
    rcases List.mem_map.mp (List.mem_dedup.mp hctype) with ⟨ev, hev, hevc⟩
    have hevcomm : is_comm_event ev = true :=
      (((Bool.and_eq_true _ _).mp (List.mem_filter.mp hev).2)).2
    have hmem : k.ctype ∈ COMM_KEYS := by
      rw [← hevc]
      exact (main ev).mp hevcomm
    exact ⟨hmem, fun hek => hunk (hek ▸ hmem)⟩

/-- A concrete event for the C10 witness. -/
def evGather : Event := ⟨some "fusion.all_gather.3", some "X", none, none, some 5⟩

/-- Witness for C10 at the declaration order and a concrete event. -/
theorem claim_C10_filter_iff_known_witness :
    (is_comm_event evGather = true ↔ comm_typeO COMM_KEYS evGather ∈ COMM_KEYS) ∧
    (comm_typeO COMM_KEYS evGather = "unknown" → is_comm_event evGather = false) ∧
    "unknown" ∉ COMM_KEYS ∧
    (∀ (f : TraceFile) (k : AggKey),
      k ∈ fileKeys COMM_KEYS f → k.ctype ∈ COMM_KEYS ∧ k.ctype ≠ "unknown") :=
  claim_C10_filter_iff_known COMM_KEYS evGather (fun _ => Iff.rfl)

/-! ### Shared concrete inputs -/

/-- A file with one all-reduce event carrying a 2,000,000 ps device
duration (2 µs), at model `m`, batch 4, tp 2. -/
def fileAR : TraceFile :=
  ⟨some "m", some "4", some "2",
   [⟨some "all-reduce.1", some "X", none, some 2000000, none⟩]⟩

/-- A file whose only event matches no communication key. -/
def fileNoComm : TraceFile :=
  ⟨some "m", some "4", some "2",
   [⟨some "custom-op", some "X", none, none, some 1⟩]⟩

/-- A communication event with neither duration field. -/
def evNoDur : Event := ⟨some "all-reduce.7", some "X", none, none, none⟩

/-- A communication event with only the microsecond `dur` field. -/
def evDurOnly : Event := ⟨some "all-reduce.8", some "X", none, none, some 3⟩

/-- An event with the picosecond device-duration field. -/
def evPs : Event := ⟨some "all-reduce.9", some "X", none, some 2000000, none⟩

/-- A file holding a duration-less communication event followed by a good
one. -/
def fileBadDur : TraceFile := ⟨some "m", some "4", some "2", [evNoDur, evDurOnly]⟩

/-- A file holding only the good communication event. -/
def fileGoodDur : TraceFile := ⟨some "m", some "4", some "2", [evDurOnly]⟩

/-! ### The file loop splits at an error -/

/-- Processing an appended file list runs the first part, then continues
from its final state, with errors propagating. -/
theorem processFiles_append (order : List String) (st : St)
    (l₁ l₂ : List (Except PyErr TraceFile)) :
    processFiles order st (l₁ ++ l₂) =
      match processFiles order st l₁ with
      | .ok st' => processFiles order st' l₂
      | .error e => .error e := by
  induction l₁ generalizing st with
  | nil => rfl
  | cons x l ih =>
    cases x with
    | error e => rfl
    | ok f =>
      rw [List.cons_append]
      have h₁ : processFiles order st (Except.ok f :: (l ++ l₂)) =
          match processFile order st f with
          | Except.error er => Except.error er
          | Except.ok st' => processFiles order st' (l ++ l₂) := rfl
      have h₂ : processFiles order st (Except.ok f :: l) =
          match processFile order st f with
          | Except.error er => Except.error er
          | Except.ok st' => processFiles order st' l := rfl
      rw [h₁, h₂]
      rcases hpf : processFile order st f with er | st'
      · rfl
      · exact ih st'

/-- A failed file loop makes the whole run fail with that error. -/
theorem mainO_error (order : List String)
    (files : List (Except PyErr TraceFile)) (e : RunErr)
    (hne : files ≠ [])
    (h : processFiles order initSt files = .error e) :
    mainO order files = .error e := by
  unfold mainO
  rw [if_neg (by simp [hne]), h]

/-! ### C2: a file that fails to read aborts the whole run -/

/-- C2 (corrected, counterexample): with a first file whose decompression
fails and a second, perfectly good file, the run ends in the uncaught
exception — the good file's data notwithstanding — while the claim says
the failing file is skipped and the run succeeds. -/
theorem claim_C2_counterexample :
    mainO COMM_KEYS [.error .badGzip, .ok fileAR] =
      .error (.fileError .badGzip) ∧
    (mainO COMM_KEYS [.ok fileAR]).isOk = true :=
  ⟨rfl, rfl⟩

/-- C2 (amended): a decompression or parse failure is not caught anywhere:
the run aborts at the first failing file with that file's exception, the
files after it are never processed (the result does not depend on them),
and the run succeeds only when every discovered file reads cleanly. -/
theorem claim_C2_parse_failure_aborts (order : List String)
    (fs₁ : List (Except PyErr TraceFile)) (e : PyErr)
    (fs₂ : List (Except PyErr TraceFile))
    (h : (processFiles order initSt fs₁).isOk = true) :
    mainO order (fs₁ ++ .error e :: fs₂) = .error (.fileError e) := by
  apply mainO_error order _ _ (by simp)
  rw [processFiles_append]
  rcases hok : processFiles order initSt fs₁ with er | st
  · rw [hok] at h
    exact absurd h Bool.false_ne_true
  · rfl

/-- Witness for C2's amended theorem: the failing file first, a good file
after it. -/
theorem claim_C2_parse_failure_aborts_witness :
    mainO COMM_KEYS ([] ++ .error .badGzip :: [.ok fileAR]) =
      .error (.fileError .badGzip) :=
  claim_C2_parse_failure_aborts COMM_KEYS [] .badGzip [.ok fileAR] rfl

/-! ### C4: duration extraction and the missing-duration abort -/

/-- C4 (corrected, counterexample): a file whose first communication event
lacks both duration fields kills the entire run with the uncaught
`KeyError` — the claim instead says that event is skipped and the rest of
the file keeps processing (the second conjunct shows the rest of the file
alone would have succeeded). -/
theorem claim_C4_counterexample :
    mainO COMM_KEYS [.ok fileBadDur] = .error .missingDuration ∧
    (mainO COMM_KEYS [.ok fileGoodDur]).isOk = true :=
  ⟨rfl, rfl⟩

/-- C4 (amended): duration extraction follows the claimed precedence — the
picosecond device field divided by 1,000,000 when present, else the
microsecond `dur` field, else a `KeyError` — but an event that fails this
way is not skipped: the uncaught `KeyError` aborts the whole run at that
file. -/
theorem claim_C4_duration_extraction :
    (∀ (e : Event) (ps : ℚ), e.device_duration_ps = some ps →
      duration_us e = .ok (ps / 1000000)) ∧
    (∀ (e : Event) (d : ℚ), e.device_duration_ps = none → e.dur = some d →
      duration_us e = .ok d) ∧
    (∀ e : Event, e.device_duration_ps = none → e.dur = none →
      duration_us e = .error .keyError) ∧
    (∀ (order : List String) (fs₁ : List (Except PyErr TraceFile))
        (f : TraceFile),
      (processFiles order initSt fs₁).isOk = true →
      (comm_events f.events).any (fun ev => !hasDur ev) = true →
      mainO order (fs₁ ++ [.ok f]) = .error .missingDuration) := by
  refine ⟨?_, ?_, ?_, ?_⟩
  · intro e ps h
    unfold duration_us
    rw [h]
  · intro e d h₁ h₂
    unfold duration_us
    rw [h₁, h₂]
  · intro e h₁ h₂
    unfold duration_us
    rw [h₁, h₂]
  · intro order fs₁ f h hbad
    apply mainO_error order _ _ (by simp)
    rw [processFiles_append]
    rcases hok : processFiles order initSt fs₁ with er | st
    · rw [hok] at h
      exact absurd h Bool.false_ne_true
    · have hne : (comm_events f.events).isEmpty = false := by
        rcases hce : comm_events f.events with _ | ⟨a, l⟩
        · rw [hce] at hbad
          exact absurd hbad (by decide)
        · rfl
      have hpf : processFile order st f = Except.error RunErr.missingDuration := by
        unfold processFile
        rw [if_neg (by rw [hne]; exact Bool.false_ne_true), if_pos hbad]
      show (match processFile order st f with
            | Except.error er => Except.error er
            | Except.ok st' => processFiles order st' []) =
          Except.error RunErr.missingDuration
      rw [hpf]

/-- Witness for C4's amended theorem at concrete events and the bad file. -/
theorem claim_C4_duration_extraction_witness :
    duration_us evPs = .ok ((2000000 : ℚ) / 1000000) ∧
    duration_us evDurOnly = .ok 3 ∧
    duration_us evNoDur = .error .keyError ∧
    mainO COMM_KEYS ([] ++ [.ok fileBadDur]) = .error .missingDuration :=
  ⟨claim_C4_duration_extraction.1 evPs 2000000 rfl,
   claim_C4_duration_extraction.2.1 evDurOnly 3 rfl rfl,
   claim_C4_duration_extraction.2.2.1 evNoDur rfl rfl,
   claim_C4_duration_extraction.2.2.2 COMM_KEYS [] fileBadDur rfl rfl⟩

/-! ### C9: empty input set and empty aggregation -/

/-- C9 (corrected, counterexample): one discovered file, but it yields no
communication events — the run returns successfully having written
nothing at all, while the claim says the columnar and delimited-text
artifacts are still produced with headers only. -/
theorem claim_C9_counterexample :
    mainO COMM_KEYS [.ok fileNoComm] = .ok [] := rfl

/-- All files skipped (no communication events) leave the state untouched. -/
theorem processFiles_skip (order : List String) (st : St)
    (files : List (Except PyErr TraceFile))
    (h : ∀ x ∈ files, ∃ f : TraceFile, x = .ok f ∧ comm_events f.events = []) :
    processFiles order st files = .ok st := by
  induction files with
  | nil => rfl
  | cons x rest ih =>
    obtain ⟨f, hx, hce⟩ := h x (List.mem_cons_self x rest)
    subst hx
    show (match processFile order st f with
          | Except.error er => Except.error er
          | Except.ok st' => processFiles order st' rest) = _
    unfold processFile
    rw [if_pos (by rw [hce]; rfl)]
    exact ih (fun y hy => h y (List.mem_cons_of_mem _ hy))

/-- C9 (amended): with no trace files discovered the run aborts with the
`SystemExit` user error before writing anything; with files discovered
but no communication data at all, the run instead returns successfully
without writing any artifact — there is no headers-only export. -/
theorem claim_C9_empty_behaviour :
    (∀ order : List String, mainO order [] = .error .noTraceFiles) ∧
    (∀ (order : List String) (files : List (Except PyErr TraceFile)),
      files ≠ [] →
      (∀ x ∈ files, ∃ f : TraceFile, x = .ok f ∧ comm_events f.events = []) →
      mainO order files = .ok []) := by
  refine ⟨fun order => rfl, fun order files hne h => ?_⟩
  unfold mainO
  rw [if_neg (by simp [hne])]
  rw [processFiles_skip order initSt files h]
  rfl

/-- Witness for C9's amended theorem. -/
theorem claim_C9_empty_behaviour_witness :
    mainO COMM_KEYS [] = .error .noTraceFiles ∧
    mainO COMM_KEYS [.ok fileNoComm] = .ok [] :=
  ⟨claim_C9_empty_behaviour.1 COMM_KEYS,
   claim_C9_empty_behaviour.2 COMM_KEYS [.ok fileNoComm]
     (List.cons_ne_nil _ _)
     (fun _ hx => ⟨fileNoComm, List.mem_singleton.mp hx, rfl⟩)⟩

/-! ### C6: the aggregation algebra -/

/-- No event contributes to an empty fold. -/
theorem keyTotal_nil (k : AggKey) : keyTotal [] k = 0 := rfl

/-- `keyTotal` unfolds one event. -/
theorem keyTotal_cons (e : AggKey × ℚ) (t : List (AggKey × ℚ)) (k : AggKey) :
    keyTotal (e :: t) k = (if e.1 = k then e.2 else 0) + keyTotal t k := by
  unfold keyTotal
  rw [List.filter_cons]
  by_cases h : e.1 = k
  · simp [h]
  · simp [h]

/-- `keyCount` unfolds one event. -/
theorem keyCount_cons (e : AggKey × ℚ) (t : List (AggKey × ℚ)) (k : AggKey) :
    keyCount (e :: t) k = (if e.1 = k then 1 else 0) + keyCount t k := by
  unfold keyCount
  rw [List.countP_cons]
  by_cases h : e.1 = k
  · simp [h, Nat.add_comm]
  · simp [h]

/-- Reading any cell after folding a list of events: the starting cell
plus the exact per-key sum and count. -/
theorem accumAll_apply (evts : List (AggKey × ℚ)) (s : AggKey → ℚ × ℕ)
    (k : AggKey) :
    accumAll s evts k = ((s k).1 + keyTotal evts k, (s k).2 + keyCount evts k) := by
  induction evts generalizing s with
  | nil =>
    show s k = _
    rw [keyTotal_nil]
    unfold keyCount
    simp
  | cons e t ih =>
    show accumAll (accumulate s e.1 e.2) t k = _
    rw [ih, keyTotal_cons, keyCount_cons]
    unfold accumulate
    by_cases hk : k = e.1
    · subst hk
      simp only [eq_self_iff_true, if_true]
      rw [Prod.ext_iff]
      constructor
      · show (s e.1).1 + e.2 + keyTotal t e.1 = (s e.1).1 + (e.2 + keyTotal t e.1)
        ring
      · show (s e.1).2 + 1 + keyCount t e.1 = (s e.1).2 + (1 + keyCount t e.1)
        omega
    · rw [if_neg hk, if_neg (fun h => hk h.symm), if_neg (fun h => hk h.symm)]
      rw [Prod.ext_iff]
      constructor
      · show (s k).1 + keyTotal t k = (s k).1 + (0 + keyTotal t k)
        ring
      · show (s k).2 + keyCount t k = (s k).2 + (0 + keyCount t k)
        omega

/-- C6 (confirmed): folding classified events into the Aggregation State
gives every key exactly the sum of its durations and the number of its
events; the final state is invariant under reordering the events; and
accumulating two lists separately and merging the states by per-key
addition equals accumulating their concatenation in one pass. -/
theorem claim_C6_aggregation_algebra :
    (∀ (evts : List (AggKey × ℚ)) (k : AggKey),
      accumAll emptyAgg evts k = (keyTotal evts k, keyCount evts k)) ∧
    (∀ evts evts' : List (AggKey × ℚ), evts.Perm evts' →
      accumAll emptyAgg evts = accumAll emptyAgg evts') ∧
    (∀ A B : List (AggKey × ℚ),
      mergeAgg (accumAll emptyAgg A) (accumAll emptyAgg B) =
        accumAll emptyAgg (A ++ B)) := by
  have happ : ∀ (evts : List (AggKey × ℚ)) (k : AggKey),
      accumAll emptyAgg evts k = (keyTotal evts k, keyCount evts k) := by
    intro evts k
    rw [accumAll_apply]
    show ((0 : ℚ) + keyTotal evts k, 0 + keyCount evts k) = _
    rw [zero_add, Nat.zero_add]
  refine ⟨happ, fun evts evts' hperm => ?_, fun A B => ?_⟩
  · funext k
    rw [happ, happ]
    have ht : keyTotal evts k = keyTotal evts' k := by
      unfold keyTotal
      exact List.Perm.sum_eq (List.Perm.map _ (List.Perm.filter _ hperm))
    have hc : keyCount evts k = keyCount evts' k := by
      unfold keyCount
      exact hperm.countP_eq _
    rw [ht, hc]
  · funext k
    show ((accumAll emptyAgg A k).1 + (accumAll emptyAgg B k).1,
          (accumAll emptyAgg A k).2 + (accumAll emptyAgg B k).2) =
        accumAll emptyAgg (A ++ B) k
    rw [happ A k, happ B k, happ (A ++ B) k]
    have ht : keyTotal (A ++ B) k = keyTotal A k + keyTotal B k := by
      unfold keyTotal
      rw [List.filter_append, List.map_append, List.sum_append]
    have hc : keyCount (A ++ B) k = keyCount A k + keyCount B k := by
      unfold keyCount
      rw [List.countP_append]
    rw [ht, hc]

/-- Two concrete keys for the C6 witness. -/
def keyW : AggKey := ⟨"m", some "2", some "4", "all-reduce"⟩

/-- A second concrete key for the C6 witness. -/
def keyX : AggKey := ⟨"m", some "2", some "8", "send"⟩

/-- Witness for C6 at a concrete permutation of two events. -/
theorem claim_C6_aggregation_algebra_witness :
    accumAll emptyAgg [(keyW, 1), (keyX, 2)] =
      accumAll emptyAgg [(keyX, 2), (keyW, 1)] :=
  claim_C6_aggregation_algebra.2.1 [(keyW, 1), (keyX, 2)]
    [(keyX, 2), (keyW, 1)] (by decide)

/-! ### C1: the two output views against each other

`totals_by_model_comm` accumulates across files with `+=` while
`processed_data` is assigned per file; the lemmas below pin both final
values: the grid cell is the per-file contributions summed, the long-form
record is the last contributing file's cell. -/

/-- The files a run actually parsed. -/
def okF (files : List (Except PyErr TraceFile)) : List TraceFile :=
  files.filterMap Except.toOption

/-- One file's addition to the grid total of key `k`. -/
def fileContribT (order : List String) (f : TraceFile) (k : AggKey) : ℚ :=
  if k ∈ fileKeys order f then (cellOf order f k).1 else 0

/-- One file's addition to the grid count of key `k`. -/
def fileContribC (order : List String) (f : TraceFile) (k : AggKey) : ℕ :=
  if k ∈ fileKeys order f then (cellOf order f k).2 else 0

/-- The grid total of key `k`: contributions of all files, summed. -/
def sumT (order : List String) (fs : List TraceFile) (k : AggKey) : ℚ :=
  (fs.map (fun f => fileContribT order f k)).sum

/-- The grid count of key `k`: contributions of all files, summed. -/
def sumC (order : List String) (fs : List TraceFile) (k : AggKey) : ℕ :=
  (fs.map (fun f => fileContribC order f k)).sum

/-- The `processed_data` record of key `k`: each contributing file
overwrites it in turn. -/
def lastWrite (order : List String) (fs : List TraceFile) (k : AggKey)
    (acc : Option (ℚ × ℕ)) : Option (ℚ × ℕ) :=
  fs.foldl
    (fun a f => if k ∈ fileKeys order f then some (cellOf order f k) else a)
    acc

/-- A skipped file (no communication events) inserts no keys. -/
theorem fileKeys_of_no_comm {order : List String} {f : TraceFile}
    (h : comm_events f.events = []) : fileKeys order f = [] := by
  unfold fileKeys fileCtypes
  rw [h]
  rfl

/-- One successful loop step, read off both state components. -/
theorem processFile_ok_state {order : List String} {st st₁ : St}
    {f : TraceFile} (hpf : processFile order st f = .ok st₁) (k : AggKey) :
    st₁.grid k = ((st.grid k).1 + fileContribT order f k,
                  (st.grid k).2 + fileContribC order f k) ∧
    st₁.longform k =
      (if k ∈ fileKeys order f then some (cellOf order f k)
       else st.longform k) := by
  unfold processFile at hpf
  by_cases hce : (comm_events f.events).isEmpty = true
  · rw [if_pos hce] at hpf
    cases hpf
    have hk0 : fileKeys order f = [] :=
      fileKeys_of_no_comm (List.isEmpty_iff.mp hce)
    unfold fileContribT fileContribC
    rw [hk0]
    simp
  · rw [if_neg hce] at hpf
    by_cases hbad : (comm_events f.events).any (fun e => !hasDur e) = true
    · rw [if_pos hbad] at hpf
      exact Except.noConfusion hpf
    · rw [if_neg hbad] at hpf
      cases hpf
      refine ⟨?_, rfl⟩
      show (if k ∈ fileKeys order f then
              ((st.grid k).1 + (cellOf order f k).1,
               (st.grid k).2 + (cellOf order f k).2)
            else st.grid k) = _
      unfold fileContribT fileContribC
      by_cases hmem : k ∈ fileKeys order f
      · rw [if_pos hmem, if_pos hmem, if_pos hmem]
      · rw [if_neg hmem, if_neg hmem, if_neg hmem, add_zero, Nat.add_zero]

/-- The final state of a completed file loop, at every key: the grid cell
is the starting cell plus all per-file contributions; the long-form record
is the last contributing file's cell (the starting record if none). -/
theorem processFiles_ok_state (order : List String) :
    ∀ (files : List (Except PyErr TraceFile)) (st st' : St),
      processFiles order st files = .ok st' →
      ∀ k : AggKey,
        st'.grid k = ((st.grid k).1 + sumT order (okF files) k,
                      (st.grid k).2 + sumC order (okF files) k) ∧
        st'.longform k = lastWrite order (okF files) k (st.longform k) := by
  intro files
  induction files with
  | nil =>
    intro st st' h k
    cases h
    refine ⟨?_, rfl⟩
    show st.grid k = ((st.grid k).1 + 0, (st.grid k).2 + 0)
    rw [add_zero, Nat.add_zero]
  | cons x rest ih =>
    intro st st' h k
    cases x with
    | error e => exact Except.noConfusion h
    | ok f =>
      have hstep : processFiles order st (.ok f :: rest) =
          match processFile order st f with
          | Except.error er => Except.error er
          | Except.ok st₁ => processFiles order st₁ rest := rfl
      rw [hstep] at h
      rcases hpf : processFile order st f with er | st₁
      · rw [hpf] at h
        exact Except.noConfusion h
      · rw [hpf] at h
        obtain ⟨hg₁, hl₁⟩ := processFile_ok_state hpf k
        obtain ⟨hg₂, hl₂⟩ := ih st₁ st' h k
        constructor
        · rw [hg₂, hg₁]
          show (((st.grid k).1 + fileContribT order f k) +
                  sumT order (okF rest) k,
                ((st.grid k).2 + fileContribC order f k) +
                  sumC order (okF rest) k) =
              ((st.grid k).1 +
                (fileContribT order f k + sumT order (okF rest) k),
               (st.grid k).2 +
                (fileContribC order f k + sumC order (okF rest) k))
          rw [Prod.ext_iff]
          exact ⟨by ring, by omega⟩
        · rw [hl₂, hl₁]
          rfl

/-- Folding files none of which touch `k` leaves the record untouched. -/
theorem lastWrite_no_contrib (order : List String) (k : AggKey) :
    ∀ (fs : List TraceFile) (acc : Option (ℚ × ℕ)),
      (∀ f ∈ fs, k ∉ fileKeys order f) → lastWrite order fs k acc = acc := by
  intro fs
  induction fs with
  | nil => intro acc _; rfl
  | cons f t ih =>
    intro acc h
    show lastWrite order t k
        (if k ∈ fileKeys order f then some (cellOf order f k) else acc) = acc
    rw [if_neg (h f (List.mem_cons_self f t))]
    exact ih acc (fun g hg => h g (List.mem_cons_of_mem _ hg))

/-- Files none of which touch `k` contribute zero to its grid cell. -/
theorem sums_no_contrib (order : List String) (k : AggKey) :
    ∀ fs : List TraceFile,
      (∀ f ∈ fs, k ∉ fileKeys order f) →
      sumT order fs k = 0 ∧ sumC order fs k = 0 := by
  intro fs
  induction fs with
  | nil => intro _; exact ⟨rfl, rfl⟩
  | cons f t ih =>
    intro h
    obtain ⟨ht, hc⟩ := ih (fun g hg => h g (List.mem_cons_of_mem _ hg))
    have hz : fileContribT order f k = 0 ∧ fileContribC order f k = 0 := by
      unfold fileContribT fileContribC
      rw [if_neg (h f (List.mem_cons_self f t)),
        if_neg (h f (List.mem_cons_self f t))]
      exact ⟨rfl, rfl⟩
    constructor
    · show fileContribT order f k + sumT order t k = 0
      rw [hz.1, ht, add_zero]
    · show fileContribC order f k + sumC order t k = 0
      rw [hz.2, hc]

/-- With at most one contributing file, the assigned long-form record and
the accumulated grid cell carry the same numbers (or the key is absent
from both). -/
theorem views_count_le_one (order : List String) (k : AggKey) :
    ∀ fs : List TraceFile,
      fs.countP (fun f => contributesKey order f k) ≤ 1 →
      (lastWrite order fs k none = none ∧
        sumT order fs k = 0 ∧ sumC order fs k = 0) ∨
      lastWrite order fs k none = some (sumT order fs k, sumC order fs k) := by
  intro fs
  induction fs with
  | nil => intro _; exact Or.inl ⟨rfl, rfl, rfl⟩
  | cons f t ih =>
    intro h
    rw [List.countP_cons] at h
    by_cases hf : k ∈ fileKeys order f
    · have hfb : contributesKey order f k = true := decide_eq_true hf
      rw [hfb, if_pos rfl] at h
      have ht0 : t.countP (fun f => contributesKey order f k) = 0 := by omega
      have htnone : ∀ g ∈ t, k ∉ fileKeys order g := by
        intro g hg
        have := List.countP_eq_zero.mp ht0 g hg
        intro hmem
        exact this (decide_eq_true hmem)
      obtain ⟨hst, hsc⟩ := sums_no_contrib order k t htnone
      right
      have hlw : lastWrite order (f :: t) k none = some (cellOf order f k) := by
        show lastWrite order t k
            (if k ∈ fileKeys order f then some (cellOf order f k) else none) =
          _
        rw [if_pos hf]
        exact lastWrite_no_contrib order k t _ htnone
      rw [hlw]
      have hsT : sumT order (f :: t) k = (cellOf order f k).1 := by
        show fileContribT order f k + sumT order t k = _
        unfold fileContribT
        rw [if_pos hf, hst, add_zero]
      have hsC : sumC order (f :: t) k = (cellOf order f k).2 := by
        show fileContribC order f k + sumC order t k = _
        unfold fileContribC
        rw [if_pos hf, hsc, Nat.add_zero]
      rw [hsT, hsC]
    · have hfb : contributesKey order f k = false := by
        unfold contributesKey
        exact decide_eq_false hf
      rw [hfb, if_neg Bool.false_ne_true] at h
      have hrec := ih (by omega)
      have hlw : lastWrite order (f :: t) k none = lastWrite order t k none := by
        show lastWrite order t k
            (if k ∈ fileKeys order f then some (cellOf order f k) else none) =
          _
        rw [if_neg hf]
      have hsT : sumT order (f :: t) k = sumT order t k := by
        show fileContribT order f k + sumT order t k = _
        unfold fileContribT
        rw [if_neg hf, zero_add]
      have hsC : sumC order (f :: t) k = sumC order t k := by
        show fileContribC order f k + sumC order t k = _
        unfold fileContribC
        rw [if_neg hf, Nat.zero_add]
      rw [hlw, hsT, hsC]
      exact hrec

/-- C1 (corrected, counterexample): two identical trace files contribute
events to the same key; the grid cell accumulates both files (4 µs over 2
events) while the long-form record keeps only the last file's per-file
numbers (2 µs over 1 event), so the two views disagree on that key. -/
theorem claim_C1_counterexample :
    finalLong COMM_KEYS [.ok fileAR, .ok fileAR] keyW = some (2, 1) ∧
    finalGrid COMM_KEYS [.ok fileAR, .ok fileAR] keyW = (4, 2) ∧
    some (finalGrid COMM_KEYS [.ok fileAR, .ok fileAR] keyW) ≠
      finalLong COMM_KEYS [.ok fileAR, .ok fileAR] keyW := by
  have ht : totals_usF COMM_KEYS fileAR.events "all-reduce" = 2 := by
    have h₀ : totals_usF COMM_KEYS fileAR.events "all-reduce" =
        [(2000000 : ℚ) / 1000000].sum := rfl
    rw [h₀, List.sum_singleton]
    norm_num
  have hc : countsF COMM_KEYS fileAR.events "all-reduce" = 1 := rfl
  have hl : finalLong COMM_KEYS [.ok fileAR, .ok fileAR] keyW =
      some (totals_usF COMM_KEYS fileAR.events "all-reduce",
            countsF COMM_KEYS fileAR.events "all-reduce") := rfl
  have hg : finalGrid COMM_KEYS [.ok fileAR, .ok fileAR] keyW =
      ((0 + totals_usF COMM_KEYS fileAR.events "all-reduce") +
         totals_usF COMM_KEYS fileAR.events "all-reduce",
       (0 + countsF COMM_KEYS fileAR.events "all-reduce") +
         countsF COMM_KEYS fileAR.events "all-reduce") := rfl
  refine ⟨?_, ?_, ?_⟩
  · rw [hl, ht, hc]
  · rw [hg, ht, hc]
    norm_num
  · rw [hl, hg, ht, hc]
    intro hcontra
    rw [Option.some_inj, Prod.ext_iff] at hcontra
    have : ((0 : ℚ) + 2) + 2 = 2 := hcontra.1
    norm_num at this

/-- C1 (amended): after a completed run, every key's grid cell is the sum
of all files' contributions while its long-form record is the last
contributing file's cell; consequently, whenever at most one trace file
contributed events to the key, the two output views carry exactly the same
total and count for it — and a key no file touched is absent from both. -/
theorem claim_C1_views_agree :
    (∀ (order : List String) (files : List (Except PyErr TraceFile))
        (st' : St),
      processFiles order initSt files = .ok st' →
      ∀ k : AggKey,
        st'.grid k = (sumT order (okF files) k, sumC order (okF files) k) ∧
        st'.longform k = lastWrite order (okF files) k none) ∧
    (∀ (order : List String) (files : List (Except PyErr TraceFile))
        (k : AggKey),
      (processFiles order initSt files).isOk = true →
      (okF files).countP (fun f => contributesKey order f k) ≤ 1 →
      (finalLong order files k = none ∧ finalGrid order files k = (0, 0)) ∨
        finalLong order files k = some (finalGrid order files k)) := by
  have hstate : ∀ (order : List String)
      (files : List (Except PyErr TraceFile)) (st' : St),
      processFiles order initSt files = .ok st' →
      ∀ k : AggKey,
        st'.grid k = (sumT order (okF files) k, sumC order (okF files) k) ∧
        st'.longform k = lastWrite order (okF files) k none := by
    intro order files st' hrun k
    have hgl := processFiles_ok_state order files initSt st' hrun k
    constructor
    · rw [hgl.1]
      show ((0 : ℚ) + _, 0 + _) = _
      rw [zero_add, Nat.zero_add]
    · exact hgl.2
  refine ⟨hstate, fun order files k hok hcount => ?_⟩
  rcases hrun : processFiles order initSt files with er | st
  · rw [hrun] at hok
    exact absurd hok Bool.false_ne_true
  · obtain ⟨hgrid, hlong⟩ := hstate order files st hrun k
    have hfg : finalGrid order files k = st.grid k := by
      unfold finalGrid
      rw [hrun]
    have hfl : finalLong order files k = st.longform k := by
      unfold finalLong
      rw [hrun]
    rcases views_count_le_one order k (okF files) hcount with ⟨h1, h2, h3⟩ | h1
    · left
      rw [hfl, hfg, hlong, hgrid, h1, h2, h3]
      exact ⟨rfl, rfl⟩
    · right
      rw [hfl, hfg, hlong, hgrid, h1]

/-- The final state of the single-file witness run. -/
def mainSt₁ : St :=
  match processFiles COMM_KEYS initSt [.ok fileAR] with
  | .ok st => st
  | .error _ => initSt

/-- Witness for C1's amended theorem: a single-file run, with the final
state read off and the two views compared. -/
theorem claim_C1_views_agree_witness :
    (∀ k : AggKey,
      (mainSt₁).grid k =
        (sumT COMM_KEYS (okF [.ok fileAR]) k,
         sumC COMM_KEYS (okF [.ok fileAR]) k) ∧
      (mainSt₁).longform k = lastWrite COMM_KEYS (okF [.ok fileAR]) k none) ∧
    ((finalLong COMM_KEYS [.ok fileAR] keyW = none ∧
        finalGrid COMM_KEYS [.ok fileAR] keyW = (0, 0)) ∨
      finalLong COMM_KEYS [.ok fileAR] keyW =
        some (finalGrid COMM_KEYS [.ok fileAR] keyW)) :=
  ⟨claim_C1_views_agree.1 COMM_KEYS [.ok fileAR] mainSt₁ rfl,
   claim_C1_views_agree.2 COMM_KEYS [.ok fileAR] keyW rfl (by decide)⟩

/-! ### C7: grid emission -/

/-- Stable insertion yields a permutation of consing. -/
theorem insSorted_perm (le : α → α → Bool) (x : α) (l : List α) :
    (insSorted le x l).Perm (x :: l) := by
  induction l with
  | nil => exact List.Perm.refl _
  | cons y ys ih =>
    show (if le x y then x :: y :: ys else y :: insSorted le x ys).Perm _
    by_cases h : le x y = true
    · rw [if_pos h]
    · rw [if_neg h]
      exact (ih.cons y).trans (List.Perm.swap x y ys)

/-- The embedded sort permutes its input. -/
theorem isortLe_perm (le : α → α → Bool) (l : List α) :
    (isortLe le l).Perm l := by
  induction l with
  | nil => exact List.Perm.refl _
  | cons x xs ih =>
    exact (insSorted_perm le x (isortLe le xs)).trans (ih.cons x)

/-- Sorting an axis keeps exactly its values. -/
theorem mem_sortAxis {l : List (Option String)} {v : Option String} :
    v ∈ sortAxis l ↔ v ∈ l :=
  (isortLe_perm _ l).mem_iff

/-- `grid.get` returns the stored cell when the key is present (the dict
has each key once). -/
theorem gridGet_of_mem :
    ∀ {g : List ((Option String × Option String) × (ℚ × ℕ))},
      (g.map Prod.fst).Nodup →
      ∀ {bt : Option String × Option String} {c : ℚ × ℕ},
        (bt, c) ∈ g → gridGet g bt = c := by
  intro g
  induction g with
  | nil =>
    intro _ bt c h
    cases h
  | cons e t ih =>
    intro hnd bt c h
    rw [List.map_cons, List.nodup_cons] at hnd
    rcases List.mem_cons.mp h with he | ht
    · rw [← he]
      unfold gridGet
      rw [List.find?_cons_of_pos _ (by exact decide_eq_true rfl)]
      rfl
    · have hne : ¬e.1 = bt := by
        intro he1
        exact hnd.1 (he1 ▸ List.mem_map.mpr ⟨(bt, c), ht, rfl⟩)
      have hstep : gridGet (e :: t) bt = gridGet t bt := by
        unfold gridGet
        have hpe : decide (e.1 = bt) = false := decide_eq_false hne
        rw [List.find?_cons, hpe]
      rw [hstep]
      exact ih hnd.2 ht

/-- `grid.get` falls back to `(0.0, 0)` when the key is absent. -/
theorem gridGet_of_not_mem
    {g : List ((Option String × Option String) × (ℚ × ℕ))}
    {bt : Option String × Option String}
    (h : ∀ c : ℚ × ℕ, (bt, c) ∉ g) : gridGet g bt = (0, 0) := by
  unfold gridGet
  rw [List.find?_eq_none.mpr ?_]
  · rfl
  · intro x hx
    intro hxp
    have hx1 : x.1 = bt := of_decide_eq_true hxp
    exact h x.2 (by rw [← hx1]; exact hx)

/-- C7 (amended): for every `(model, category)` pair, the emitted table's
axes are exactly the batch and tp values observed for that pair's grid
(not for the whole model); each observed cell renders its stored total and
count, and every axis combination the pair never observed renders as
`"0.000/0"`. -/
theorem claim_C7_grid_rendering
    (g : List ((Option String × Option String) × (ℚ × ℕ)))
    (hnd : (g.map Prod.fst).Nodup) :
    (∀ b, b ∈ sortAxis (gridBatches g) ↔
      ∃ t c, ((b, t), c) ∈ g) ∧
    (∀ t, t ∈ sortAxis (gridTps g) ↔
      ∃ b c, ((b, t), c) ∈ g) ∧
    (∀ (bt : Option String × Option String) (c : ℚ × ℕ),
      (bt, c) ∈ g → gridGet g bt = c) ∧
    (∀ bt : Option String × Option String,
      (∀ c, (bt, c) ∉ g) →
        gridGet g bt = (0, 0) ∧ fmtCell (gridGet g bt) = "0.000/0") ∧
    emitGridTable g =
      ("batch \\ tp" :: (sortAxis (gridTps g)).map showOpt) ::
        (sortAxis (gridBatches g)).map
          (fun b => showOpt b ::
            (sortAxis (gridTps g)).map (fun t => fmtCell (gridGet g (b, t)))) := by
  refine ⟨fun b => ?_, fun t => ?_, fun bt c h => gridGet_of_mem hnd h,
    fun bt h => ?_, rfl⟩
  · rw [mem_sortAxis]
    unfold gridBatches
    rw [List.mem_dedup, List.mem_map]
    constructor
    · rintro ⟨e, he, heb⟩
      subst heb
      exact ⟨e.1.2, e.2, he⟩
    · rintro ⟨t, c, h⟩
      exact ⟨((b, t), c), h, rfl⟩
  · rw [mem_sortAxis]
    unfold gridTps
    rw [List.mem_dedup, List.mem_map]
    constructor
    · rintro ⟨e, he, het⟩
      subst het
      exact ⟨e.1.1, e.2, he⟩
    · rintro ⟨b, c, h⟩
      exact ⟨((b, t), c), h, rfl⟩
  · have h0 := gridGet_of_not_mem h
    refine ⟨h0, ?_⟩
    rw [h0]
    decide

/-- Witness for C7's amended theorem at a one-cell grid. -/
theorem claim_C7_grid_rendering_witness :
    (∀ b, b ∈ sortAxis (gridBatches [((some "4", some "1"), ((2 : ℚ), 1))]) ↔
      ∃ t c, ((b, t), c) ∈ [((some "4", some "1"), ((2 : ℚ), 1))]) ∧
    (∀ t, t ∈ sortAxis (gridTps [((some "4", some "1"), ((2 : ℚ), 1))]) ↔
      ∃ b c, ((b, t), c) ∈ [((some "4", some "1"), ((2 : ℚ), 1))]) ∧
    (∀ (bt : Option String × Option String) (c : ℚ × ℕ),
      (bt, c) ∈ [((some "4", some "1"), ((2 : ℚ), 1))] →
        gridGet [((some "4", some "1"), ((2 : ℚ), 1))] bt = c) ∧
    (∀ bt : Option String × Option String,
      (∀ c, (bt, c) ∉ [((some "4", some "1"), ((2 : ℚ), 1))]) →
        gridGet [((some "4", some "1"), ((2 : ℚ), 1))] bt = (0, 0) ∧
        fmtCell (gridGet [((some "4", some "1"), ((2 : ℚ), 1))] bt) =
          "0.000/0") ∧
    emitGridTable [((some "4", some "1"), ((2 : ℚ), 1))] =
      ("batch \\ tp" ::
          (sortAxis (gridTps [((some "4", some "1"), ((2 : ℚ), 1))])).map
            showOpt) ::
        (sortAxis (gridBatches [((some "4", some "1"), ((2 : ℚ), 1))])).map
          (fun b => showOpt b ::
            (sortAxis (gridTps [((some "4", some "1"), ((2 : ℚ), 1))])).map
              (fun t =>
                fmtCell (gridGet [((some "4", some "1"), ((2 : ℚ), 1))]
                  (b, t)))) :=
  claim_C7_grid_rendering [((some "4", some "1"), ((2 : ℚ), 1))] (by decide)

/-- A file of model `m` with an all-reduce event at batch 4. -/
def fileM4 : TraceFile :=
  ⟨some "m", some "4", some "1",
   [⟨some "all-reduce.1", some "X", none, none, some 1⟩]⟩

/-- A file of model `m` with a send event at batch 8. -/
def fileM8 : TraceFile :=
  ⟨some "m", some "8", some "1",
   [⟨some "send.1", some "X", none, none, some 1⟩]⟩

/-- C7 (corrected, counterexample): model `m` observes batches 4 (under
all-reduce) and 8 (under send), but the emitted grid for the pair
`(m, all-reduce)` has row axis `[4]` — the axis is the set observed for
the `(model, category)` pair, not the claimed set observed for the model. -/
theorem claim_C7_counterexample :
    sortAxis (gridBatches (subGrid COMM_KEYS [fileM4, fileM8]
        (finalGrid COMM_KEYS [.ok fileM4, .ok fileM8]) ("m", "all-reduce"))) =
      [some "4"] ∧
    ((allKeys COMM_KEYS [fileM4, fileM8]).filterMap
        (fun k => if k.model = "m" then some k.batch else none)).dedup =
      [some "4", some "8"] ∧
    [some ("4" : String)] ≠ [some "4", some "8"] := by
  refine ⟨?_, by decide, by decide⟩
  have h : gridBatches (subGrid COMM_KEYS [fileM4, fileM8]
      (finalGrid COMM_KEYS [.ok fileM4, .ok fileM8]) ("m", "all-reduce")) =
      [some "4"] := by
    unfold gridBatches subGrid
    rw [List.map_map]
    decide
  rw [h]
  rfl

/-! ### C8: the axis sort

Proof-side decoder: the numeric value of a digit string, used to state
that lexicographic comparison of the zero-padded numerals agrees with
numeric order. -/

/-- Fold a digit string into its value, from an accumulator. -/
def decValAux (a : ℕ) : List Char → ℕ
  | [] => a
  | c :: cs => decValAux (10 * a + (c.toNat - 48)) cs

/-- The numeric value of a digit string. -/
def decVal (l : List Char) : ℕ := decValAux 0 l

/-- A digit character's code point sits in `[48, 57]`. -/
theorem digitChar_digit (d : ℕ) :
    48 ≤ (digitChar d).toNat ∧ (digitChar d).toNat ≤ 57 := by
  rcases d with _|_|_|_|_|_|_|_|_|_|d
  · exact ⟨by decide, by decide⟩
  · exact ⟨by decide, by decide⟩
  · exact ⟨by decide, by decide⟩
  · exact ⟨by decide, by decide⟩
  · exact ⟨by decide, by decide⟩
  · exact ⟨by decide, by decide⟩
  · exact ⟨by decide, by decide⟩
  · exact ⟨by decide, by decide⟩
  · exact ⟨by decide, by decide⟩
  · exact ⟨by decide, by decide⟩
  · constructor
    · show (48 : ℕ) ≤ 48
      decide
    · show (48 : ℕ) ≤ 57
      decide

/-- Pull the accumulator out of `decValAux`. -/
theorem decValAux_acc (l : List Char) :
    ∀ a : ℕ, decValAux a l = a * 10 ^ l.length + decValAux 0 l := by
  induction l with
  | nil =>
    intro a
    show a = a * 10 ^ 0 + 0
    rw [pow_zero, Nat.mul_one, Nat.add_zero]
  | cons c cs ih =>
    intro a
    show decValAux (10 * a + (c.toNat - 48)) cs = _
    rw [ih (10 * a + (c.toNat - 48))]
    have h2 : decValAux 0 (c :: cs) =
        (c.toNat - 48) * 10 ^ cs.length + decValAux 0 cs := by
      show decValAux (10 * 0 + (c.toNat - 48)) cs = _
      rw [ih (10 * 0 + (c.toNat - 48)), Nat.mul_zero, Nat.zero_add]
    rw [h2, List.length_cons]
    ring

/-- One cons step of the value. -/
theorem decVal_cons (c : Char) (cs : List Char) :
    decVal (c :: cs) = (c.toNat - 48) * 10 ^ cs.length + decVal cs := by
  show decValAux (10 * 0 + (c.toNat - 48)) cs = _
  rw [decValAux_acc, Nat.mul_zero, Nat.zero_add]
  rfl

/-- A digit string's value is below `10 ^ length`. -/
theorem decVal_lt (l : List Char)
    (h : ∀ c ∈ l, 48 ≤ c.toNat ∧ c.toNat ≤ 57) :
    decVal l < 10 ^ l.length := by
  induction l with
  | nil => decide
  | cons c cs ih =>
    rw [decVal_cons, List.length_cons]
    have hd : c.toNat - 48 ≤ 9 := by
      have := h c (List.mem_cons_self c cs)
      omega
    have h1 : (c.toNat - 48) * 10 ^ cs.length ≤ 9 * 10 ^ cs.length :=
      Nat.mul_le_mul_right _ hd
    have h2 : decVal cs < 10 ^ cs.length :=
      ih (fun x hx => h x (List.mem_cons_of_mem _ hx))
    calc (c.toNat - 48) * 10 ^ cs.length + decVal cs
        < 9 * 10 ^ cs.length + 10 ^ cs.length :=
          Nat.add_lt_add_of_le_of_lt h1 h2
      _ = 10 ^ (cs.length + 1) := by ring

/-- Appending one digit multiplies the value by ten and adds it. -/
theorem decVal_append_digit (l : List Char) (c : Char) :
    decVal (l ++ [c]) = 10 * decVal l + (c.toNat - 48) := by
  have key : ∀ (l' : List Char) (a : ℕ),
      decValAux a (l' ++ [c]) = 10 * decValAux a l' + (c.toNat - 48) := by
    intro l'
    induction l' with
    | nil => intro a; rfl
    | cons d ds ih =>
      intro a
      show decValAux (10 * a + (d.toNat - 48)) (ds ++ [c]) = _
      rw [ih (10 * a + (d.toNat - 48))]
      rfl
  exact key l 0

/-- The printed numeral decodes back to the number. -/
theorem decVal_natDecAux : ∀ fuel n : ℕ, n ≤ fuel →
    decVal (natDecAux fuel n) = n := by
  intro fuel
  induction fuel with
  | zero =>
    intro n h
    have h0 : n = 0 := Nat.le_zero.mp h
    subst h0
    rfl
  | succ fu ih =>
    intro n h
    cases n with
    | zero => rfl
    | succ m =>
      show decVal (natDecAux fu ((m + 1) / 10) ++ [digitChar ((m + 1) % 10)]) = _
      rw [decVal_append_digit]
      rw [ih ((m + 1) / 10) (by omega)]
      have hd : (digitChar ((m + 1) % 10)).toNat = 48 + (m + 1) % 10 := by
        have hm : (m + 1) % 10 < 10 := Nat.mod_lt _ (by norm_num)
        rcases hx : (m + 1) % 10 with _|_|_|_|_|_|_|_|_|_|x
        all_goals first
          | rfl
          | (rw [hx] at hm; omega)
      rw [hd]
      omega

/-- Every character the numeral printer emits is a digit. -/
theorem natDecAux_digits : ∀ fuel n : ℕ, ∀ c ∈ natDecAux fuel n,
    48 ≤ c.toNat ∧ c.toNat ≤ 57 := by
  intro fuel
  induction fuel with
  | zero =>
    intro n c h
    cases h
  | succ fu ih =>
    intro n c h
    cases n with
    | zero => cases h
    | succ m =>
      have h' : c ∈ natDecAux fu ((m + 1) / 10) ++ [digitChar ((m + 1) % 10)] := h
      rcases List.mem_append.mp h' with h1 | h2
      · exact ih _ c h1
      · rw [List.mem_singleton] at h2
        subst h2
        exact digitChar_digit _


/-- The numeral of `n < 10 ^ k` has at most `k` digits. -/
theorem natDecAux_length : ∀ fuel n k : ℕ, n ≤ fuel → n < 10 ^ k →
    (natDecAux fuel n).length ≤ k := by
  intro fuel
  induction fuel with
  | zero =>
    intro n k h _
    have h0 : n = 0 := Nat.le_zero.mp h
    subst h0
    exact Nat.zero_le k
  | succ fu ih =>
    intro n k h hk
    cases n with
    | zero => exact Nat.zero_le k
    | succ m =>
      show (natDecAux fu ((m + 1) / 10) ++ [digitChar ((m + 1) % 10)]).length ≤ k
      rw [List.length_append, List.length_singleton]
      have hk1 : 1 ≤ k := by
        by_contra h0
        push_neg at h0
        have : k = 0 := by omega
        subst this
        rw [pow_zero] at hk
        omega
      have hdiv : (m + 1) / 10 < 10 ^ (k - 1) := by
        rw [Nat.div_lt_iff_lt_mul (by norm_num)]
        calc m + 1 < 10 ^ k := hk
          _ = 10 ^ (k - 1) * 10 := by
            rw [← pow_succ]
            congr 1
            omega
      have hrec := ih ((m + 1) / 10) (k - 1) (by omega) hdiv
      omega

/-- `str(n)` decodes to `n`. -/
theorem decVal_pyNatStr (n : ℕ) : decVal (pyNatStr n) = n := by
  unfold pyNatStr
  by_cases h : n = 0
  · rw [if_pos h, h]
    rfl
  · rw [if_neg h]
    exact decVal_natDecAux n n (Nat.le_refl n)

/-- `str(n)` is all digits. -/
theorem pyNatStr_digits (n : ℕ) :
    ∀ c ∈ pyNatStr n, 48 ≤ c.toNat ∧ c.toNat ≤ 57 := by
  unfold pyNatStr
  by_cases h : n = 0
  · rw [if_pos h]
    intro c hc
    rw [List.mem_singleton] at hc
    subst hc
    exact ⟨by decide, by decide⟩
  · rw [if_neg h]
    exact natDecAux_digits n n

/-- `str(n)` has at most `k` digits when `n < 10 ^ k` (for positive `k`). -/
theorem pyNatStr_length (n k : ℕ) (hk : 1 ≤ k) (h : n < 10 ^ k) :
    (pyNatStr n).length ≤ k := by
  unfold pyNatStr
  by_cases h0 : n = 0
  · rw [if_pos h0]
    exact hk
  · rw [if_neg h0]
    exact natDecAux_length n n k (Nat.le_refl n) h

/-- Leading zeros do not change the decoded value. -/
theorem decVal_padZeros (w : ℕ) (l : List Char) :
    decVal (padZeros w l) = decVal l := by
  unfold padZeros
  have key : ∀ m : ℕ, decVal (List.replicate m '0' ++ l) = decVal l := by
    intro m
    induction m with
    | zero => rfl
    | succ mm ih =>
      show decValAux (10 * 0 + (('0').toNat - 48))
          (List.replicate mm '0' ++ l) = _
      rw [show 10 * 0 + (('0').toNat - 48) = 0 from rfl]
      exact ih
  exact key (w - l.length)

/-- Padding with zeros keeps every character a digit. -/
theorem padZeros_digits (w : ℕ) (l : List Char)
    (h : ∀ c ∈ l, 48 ≤ c.toNat ∧ c.toNat ≤ 57) :
    ∀ c ∈ padZeros w l, 48 ≤ c.toNat ∧ c.toNat ≤ 57 := by
  intro c hc
  rcases List.mem_append.mp hc with h1 | h2
  · have := List.eq_of_mem_replicate h1
    subst this
    exact ⟨by decide, by decide⟩
  · exact h c h2

/-- Padding to a width at least the length hits the width exactly. -/
theorem padZeros_length (w : ℕ) (l : List Char) (h : l.length ≤ w) :
    (padZeros w l).length = w := by
  unfold padZeros
  rw [List.length_append, List.length_replicate]
  omega

/-- On equal-length digit strings, Python's string `<` is exactly numeric
order of the decoded values. -/
theorem charsLt_iff_val : ∀ l₁ l₂ : List Char, l₁.length = l₂.length →
    (∀ c ∈ l₁, 48 ≤ c.toNat ∧ c.toNat ≤ 57) →
    (∀ c ∈ l₂, 48 ≤ c.toNat ∧ c.toNat ≤ 57) →
    (charsLt l₁ l₂ = true ↔ decVal l₁ < decVal l₂) := by
  intro l₁
  induction l₁ with
  | nil =>
    intro l₂ hlen _ _
    cases l₂ with
    | nil =>
      constructor
      · intro h
        cases h
      · intro h
        exact absurd h (by decide)
    | cons b bs => cases hlen
  | cons a as ih =>
    intro l₂ hlen h₁ h₂
    cases l₂ with
    | nil => cases hlen
    | cons b bs =>
      have hlen' : as.length = bs.length := by
        rw [List.length_cons, List.length_cons] at hlen
        omega
      have ha := h₁ a (List.mem_cons_self a as)
      have hb := h₂ b (List.mem_cons_self b bs)
      have hVa : decVal as < 10 ^ as.length :=
        decVal_lt as (fun c hc => h₁ c (List.mem_cons_of_mem _ hc))
      have hVb : decVal bs < 10 ^ bs.length :=
        decVal_lt bs (fun c hc => h₂ c (List.mem_cons_of_mem _ hc))
      rw [decVal_cons, decVal_cons, hlen']
      show (if a.toNat < b.toNat then true
            else if b.toNat < a.toNat then false else charsLt as bs) = true ↔ _
      by_cases hab : a.toNat < b.toNat
      · rw [if_pos hab]
        constructor
        · intro _
          have hd : a.toNat - 48 < b.toNat - 48 := by omega
          calc (a.toNat - 48) * 10 ^ bs.length + decVal as
              < (a.toNat - 48) * 10 ^ bs.length + 10 ^ bs.length := by
                rw [hlen'] at hVa
                omega
            _ = (a.toNat - 48 + 1) * 10 ^ bs.length := by ring
            _ ≤ (b.toNat - 48) * 10 ^ bs.length :=
                Nat.mul_le_mul_right _ (by omega)
            _ ≤ (b.toNat - 48) * 10 ^ bs.length + decVal bs :=
                Nat.le_add_right _ _
        · intro _
          rfl
      · rw [if_neg hab]
        by_cases hba : b.toNat < a.toNat
        · rw [if_pos hba]
          constructor
          · intro h
            cases h
          · intro hlt
            exfalso
            have : (b.toNat - 48) * 10 ^ bs.length + decVal bs
                < (a.toNat - 48) * 10 ^ bs.length + decVal as := by
              calc (b.toNat - 48) * 10 ^ bs.length + decVal bs
                  < (b.toNat - 48) * 10 ^ bs.length + 10 ^ bs.length := by
                    omega
                _ = (b.toNat - 48 + 1) * 10 ^ bs.length := by ring
                _ ≤ (a.toNat - 48) * 10 ^ bs.length :=
                    Nat.mul_le_mul_right _ (by omega)
                _ ≤ (a.toNat - 48) * 10 ^ bs.length + decVal as :=
                    Nat.le_add_right _ _
            omega
        · rw [if_neg hba]
          have heq : a.toNat = b.toNat := by omega
          rw [heq]
          have := ih bs hlen'
            (fun c hc => h₁ c (List.mem_cons_of_mem _ hc))
            (fun c hc => h₂ c (List.mem_cons_of_mem _ hc))
          rw [this]
          omega

/-- `str(n)` is never the empty string. -/
theorem pyNatStr_ne_nil (a : ℕ) : pyNatStr a ≠ [] := by
  unfold pyNatStr
  by_cases h : a = 0
  · rw [if_pos h]
    exact List.cons_ne_nil _ _
  · rw [if_neg h]
    rcases a with _ | m
    · exact absurd rfl h
    · show natDecAux m ((m + 1) / 10) ++ [digitChar ((m + 1) % 10)] ≠ []
      simp

/-- Folding a pure digit string never fails and yields its value. -/
theorem decDigits?_go : ∀ (l : List Char) (a : ℕ),
    (∀ c ∈ l, 48 ≤ c.toNat ∧ c.toNat ≤ 57) →
    List.foldl
      (fun acc c =>
        match acc, digitVal? c with
        | some a, some d => some (10 * a + d)
        | _, _ => none)
      (some a) l = some (decValAux a l) := by
  intro l
  induction l with
  | nil => intro a _; rfl
  | cons c cs ih =>
    intro a h
    have hc := h c (List.mem_cons_self c cs)
    have hd : digitVal? c = some (c.toNat - 48) := by
      unfold digitVal?
      rw [if_pos ⟨hc.1, hc.2⟩]
    rw [List.foldl_cons, hd]
    exact ih _ (fun x hx => h x (List.mem_cons_of_mem _ hx))

/-- `decDigits?` on a digit string is its decoded value. -/
theorem decDigits?_eq (l : List Char)
    (h : ∀ c ∈ l, 48 ≤ c.toNat ∧ c.toNat ≤ 57) :
    decDigits? l = some (decVal l) :=
  decDigits?_go l 0 h

/-- Parsing the printed numeral of a natural number gives it back. -/
theorem pyInt?_pyNatStr (a : ℕ) : pyInt? ⟨pyNatStr a⟩ = some (a : ℤ) := by
  unfold pyInt?
  rcases hl : pyNatStr a with _ | ⟨c, rest⟩
  · exact absurd hl (pyNatStr_ne_nil a)
  · have hcd : 48 ≤ c.toNat ∧ c.toNat ≤ 57 :=
      pyNatStr_digits a c (hl ▸ List.mem_cons_self c rest)
    have hcm : ¬(c = '-') := by
      intro h
      subst h
      exact absurd hcd.1 (by decide)
    have hcp : ¬(c = '+') := by
      intro h
      subst h
      exact absurd hcd.1 (by decide)
    show (if c = '-' then
            if rest.isEmpty then none
            else (decDigits? rest).map (fun n => -(n : ℤ))
          else if c = '+' then
            if rest.isEmpty then none
            else (decDigits? rest).map (fun n => (n : ℤ))
          else (decDigits? (c :: rest)).map (fun n => (n : ℤ))) = some (a : ℤ)
    rw [if_neg hcm, if_neg hcp, ← hl,
      decDigits?_eq (pyNatStr a) (pyNatStr_digits a), decVal_pyNatStr]
    rfl

/-- `sort_key` on a printed natural number is the zero-padded numeral. -/
theorem sort_key_natStr (a : ℕ) :
    sort_key (some ⟨pyNatStr a⟩) = (0, padZeros 10 (pyNatStr a)) := by
  unfold sort_key
  show (match pyInt? (⟨pyNatStr a⟩ : String) with
        | some n => ((0 : ℕ), fmt010 n)
        | none => (0, (⟨pyNatStr a⟩ : String).data)) = _
  rw [pyInt?_pyNatStr]
  show (0, fmt010 (a : ℤ)) = _
  unfold fmt010
  rw [if_neg (not_lt.mpr (Int.natCast_nonneg a))]
  rw [Int.toNat_natCast]

/-- `sort_key` on a value that does not parse as an integer. -/
theorem sort_key_of_none {s : String} (h : pyInt? s = none) :
    sort_key (some s) = (0, s.data) := by
  unfold sort_key
  show (match pyInt? s with
        | some n => ((0 : ℕ), fmt010 n)
        | none => (0, s.data)) = _
  rw [h]

/-- Key comparison between two non-`None` keys is the string comparison. -/
theorem keyLt_zero_pair (L₁ L₂ : List Char) :
    keyLt (0, L₁) (0, L₂) = charsLt L₁ L₂ := by
  unfold keyLt
  simp

/-- C8 (corrected, counterexample): on `["-1", "-2", "5", "!"]` the claimed
order would be `["-2", "-1", "5", "!"]` (numeric ascending, numerics
first), but zero-padding makes `"-1"` sort before `"-2"` and the
non-numeric `"!"` (code point below `'0'`) sort before every padded
numeral, so the code produces `["!", "-1", "-2", "5"]`. -/
theorem claim_C8_counterexample :
    sortAxis [some "-1", some "-2", some "5", some "!"] =
      [some "!", some "-1", some "-2", some "5"] ∧
    sortAxis [some "-1", some "-2", some "5", some "!"] ≠
      [some "-2", some "-1", some "5", some "!"] :=
  ⟨by decide, by decide⟩

/-- C8 (amended): values that parse as non-negative integers of at most
ten digits sort in ascending numeric order; values that do not parse as
integers compare by plain string order among themselves; such a numeric
value sorts before a non-numeric value whenever the non-numeric value's
first character lies above `'9'` (the zero-padded numeral is compared
against the raw string, so non-numeric strings starting below `'0'` sort
before numerals instead); and `["1", "10", "2", "a"]` sorts to
`["1", "2", "10", "a"]`. -/
theorem claim_C8_axis_sort :
    (∀ a b : ℕ, a < 10 ^ 10 → b < 10 ^ 10 →
      (keyLt (sort_key (some ⟨pyNatStr a⟩)) (sort_key (some ⟨pyNatStr b⟩)) =
          true ↔ a < b)) ∧
    (∀ s t : String, pyInt? s = none → pyInt? t = none →
      keyLt (sort_key (some s)) (sort_key (some t)) = charsLt s.data t.data) ∧
    (∀ (a : ℕ) (s : String) (c : Char) (cs : List Char), a < 10 ^ 10 →
      pyInt? s = none → s.data = c :: cs → 57 < c.toNat →
      keyLt (sort_key (some ⟨pyNatStr a⟩)) (sort_key (some s)) = true) ∧
    sortAxis [some "1", some "10", some "2", some "a"] =
      [some "1", some "2", some "10", some "a"] := by
  have hpadlen : ∀ a : ℕ, a < 10 ^ 10 →
      (padZeros 10 (pyNatStr a)).length = 10 :=
    fun a ha => padZeros_length 10 _ (pyNatStr_length a 10 (by norm_num) ha)
  have hpadval : ∀ a : ℕ, decVal (padZeros 10 (pyNatStr a)) = a := by
    intro a
    rw [decVal_padZeros, decVal_pyNatStr]
  have hpaddig : ∀ a : ℕ, ∀ c ∈ padZeros 10 (pyNatStr a),
      48 ≤ c.toNat ∧ c.toNat ≤ 57 :=
    fun a => padZeros_digits 10 (pyNatStr a) (pyNatStr_digits a)
  refine ⟨fun a b ha hb => ?_, fun s t hs ht => ?_,
    fun a s c cs ha hs hsd hc => ?_, by decide⟩
  · rw [sort_key_natStr, sort_key_natStr, keyLt_zero_pair]
    rw [charsLt_iff_val _ _ (by rw [hpadlen a ha, hpadlen b hb])
      (hpaddig a) (hpaddig b)]
    rw [hpadval a, hpadval b]
  · rw [sort_key_of_none hs, sort_key_of_none ht]
    exact keyLt_zero_pair _ _
  · rw [sort_key_natStr, sort_key_of_none hs]
    rw [keyLt_zero_pair, hsd]
    rcases hp : padZeros 10 (pyNatStr a) with _ | ⟨d, ds⟩
    · exfalso
      have hlen := hpadlen a ha
      rw [hp] at hlen
      exact absurd hlen (by decide)
    · have hd : 48 ≤ d.toNat ∧ d.toNat ≤ 57 :=
        hpaddig a d (hp ▸ List.mem_cons_self d ds)
      show (if d.toNat < c.toNat then true
            else if c.toNat < d.toNat then false else charsLt ds cs) = true
      rw [if_pos (by omega)]

/-- Witness for C8's amended theorem at concrete values. -/
theorem claim_C8_axis_sort_witness :
    (keyLt (sort_key (some ⟨pyNatStr 2⟩)) (sort_key (some ⟨pyNatStr 10⟩)) =
      true) ∧
    keyLt (sort_key (some "a")) (sort_key (some "b")) =
      charsLt "a".data "b".data ∧
    keyLt (sort_key (some ⟨pyNatStr 3⟩)) (sort_key (some "a")) = true :=
  ⟨(claim_C8_axis_sort.1 2 10 (by norm_num) (by norm_num)).mpr (by norm_num),
   claim_C8_axis_sort.2.1 "a" "b" (by decide) (by decide),
   claim_C8_axis_sort.2.2.1 3 "a" 'a' [] (by norm_num) (by decide) rfl
     (by decide)⟩

end ProcessTraces
